import Mathlib

/-!
Verification of the cluster algebra of the content-network-analyzer repository.

The development shallowly embeds the Python sources:
* `src/content_network_analyzer/core/cluster.py` (Cluster, LazyUnion, NamedCluster),
* `src/content_network_analyzer/core/sample.py` (RandomVariable, Individual, SampledIndividual),
* `src/content_network_analyzer/core/namedentity.py` (NamedEntity),
* `src/content_network_analyzer/core/util.py` (fraction),
* `src/content_network_analyzer/models/github.py` (GitHubRepository and its Snapshot),
* `src/content_network_analyzer/models/soundcloud.py` (SoundCloudTrack and its Snapshot).

Python datetimes are embedded as natural numbers (only their total order and
equality matter to the embedded code); Python ints as `Int`; Python floats that
are only ever produced by exact arithmetic on the embedded inputs as `Rat`;
Python sets of strings as `Finset String`.
-/

namespace ContentNetworkAnalyzer

/-- The programming-language usage ratios of one repository
(`Language.Ratios` in `models/github.py`): a mapping from language names to
ratios, embedded as an association list. -/
abbrev LanguageRatios := List (String × Rat)

/-- `Language.AverageRatios` from `models/github.py`: a dated bag of
per-repository language ratios.  Its `__add__` (below) concatenates the bags
and takes the later date. -/
structure AverageRatios where
  date : Nat
  sample : List LanguageRatios
  deriving DecidableEq

/-- `Language.AverageRatios.__add__` (github.py lines 311-314), in the case
where the other operand is a concrete `AverageRatios` (the `other == 0`
branch returns `self` and is never reached during lazy-union iteration). -/
def AverageRatios.add (a b : AverageRatios) : AverageRatios :=
  { date := max a.date b.date, sample := a.sample ++ b.sample }

/-- `GitHubRepository.Snapshot` (github.py lines 457-567).  The `repository`
field holds the URL of the owning repository handle (`None` when the snapshot
belongs to a cluster), which is the key under which the registry shares
stores. -/
structure GitHubRepository.Snapshot where
  repository : Option String
  owner : Option String
  title : Option String
  date : Nat
  watching : Int
  stars : Int
  forks : Int
  issues : Int
  pullRequests : Int
  projects : Int
  commits : Int
  branches : Int
  releases : Int
  licenses : Finset String
  languages : AverageRatios
  deriving DecidableEq

/-- `GitHubRepository.Snapshot.__add__` (github.py lines 586-595): nulls the
identity fields, takes the maximum date, sums every counter, unions the
licenses and recursively combines the language ratios. -/
def GitHubRepository.Snapshot.add (a b : GitHubRepository.Snapshot) :
    GitHubRepository.Snapshot :=
  { repository := none, owner := none, title := none,
    date := max a.date b.date,
    watching := a.watching + b.watching, stars := a.stars + b.stars,
    forks := a.forks + b.forks, issues := a.issues + b.issues,
    pullRequests := a.pullRequests + b.pullRequests,
    projects := a.projects + b.projects, commits := a.commits + b.commits,
    branches := a.branches + b.branches, releases := a.releases + b.releases,
    licenses := a.licenses ∪ b.licenses,
    languages := a.languages.add b.languages }

/-- `GitHubRepository.Snapshot.__eq__` (github.py lines 578-581): snapshots are
equal when they belong to the same repository and carry the same date.  The
Python code compares the repository handles through the name-based
`NamedEntity.__eq__`; the embedding keys the handles by the URL under which
the registry deduplicates them.  Same URL always means the same handle, hence
the same display name, so `eqb = true` entails Python equality; distinct URLs
entail Python inequality only when the handles' display names also differ,
which the theorems below additionally assume where the tie-break depends on
it. -/
def GitHubRepository.Snapshot.eqb (a b : GitHubRepository.Snapshot) : Bool :=
  a.repository == b.repository && a.date == b.date

/-- `util.fraction` (util.py lines 12-39) with the default `bottom = 0.0`:
the quotient of two integers, or `0` when the denominator is zero. -/
def fraction (numerator denominator : Int) : Rat :=
  if denominator = 0 then 0 else (numerator : Rat) / (denominator : Rat)

/-- `SoundCloudTrack.Snapshot` (soundcloud.py lines 72-164).  The `track`
field holds the URL of the owning track handle.  The dynamically attached
`"likes / plays"` entry of `__dict__` is embedded as the explicit field
`likesPerPlays`, computed by the constructor as `fraction likes plays`. -/
structure SoundCloudTrack.Snapshot where
  track : Option String
  title : Option String
  date : Nat
  plays : Int
  downloads : Int
  comments : Int
  likes : Int
  likesPerPlays : Rat
  deriving DecidableEq

/-- The constructor of `SoundCloudTrack.Snapshot` (soundcloud.py lines
116-138), which derives the `"likes / plays"` field from the given counters. -/
def SoundCloudTrack.Snapshot.mk' (track title : Option String) (date : Nat)
    (plays downloads comments likes : Int) : SoundCloudTrack.Snapshot :=
  { track := track, title := title, date := date, plays := plays,
    downloads := downloads, comments := comments, likes := likes,
    likesPerPlays := fraction likes plays }

/-- `SoundCloudTrack.Snapshot.__add__` (soundcloud.py lines 159-164): nulls the
identity fields, keeps the date of the left operand and sums every counter. -/
def SoundCloudTrack.Snapshot.add (a b : SoundCloudTrack.Snapshot) :
    SoundCloudTrack.Snapshot :=
  SoundCloudTrack.Snapshot.mk' none none a.date (a.plays + b.plays)
    (a.downloads + b.downloads) (a.comments + b.comments) (a.likes + b.likes)

/-- `SoundCloudTrack.Snapshot.__eq__` (soundcloud.py lines 152-154): same
track and same date.  As with GitHub snapshots, the Python code compares the
track handles by display name (the latest title) while the embedding keys
them by URL; `eqb = true` entails Python equality because same-URL handles
share one store and therefore one name. -/
def SoundCloudTrack.Snapshot.eqb (a b : SoundCloudTrack.Snapshot) : Bool :=
  a.track == b.track && a.date == b.date

/-- One kind of sampled individual: its sampling date (`getDatetime`,
ordering snapshots during the merge), its Python `==` (which breaks ties
inside `heapq.merge` through the generated tuples), and its `__add__`. -/
structure IndividualKind (S : Type) where
  date : S → Nat
  eqb : S → S → Bool
  add : S → S → S

/-- The GitHub snapshot kind. -/
def ghKind : IndividualKind GitHubRepository.Snapshot :=
  { date := GitHubRepository.Snapshot.date,
    eqb := GitHubRepository.Snapshot.eqb,
    add := GitHubRepository.Snapshot.add }

/-- The SoundCloud snapshot kind. -/
def scKind : IndividualKind SoundCloudTrack.Snapshot :=
  { date := SoundCloudTrack.Snapshot.date,
    eqb := SoundCloudTrack.Snapshot.eqb,
    add := SoundCloudTrack.Snapshot.add }

/-- The ordering that `heapq.merge` applies to the tuples
`(individual, own_index, other_index)` generated by `LazyUnion.__iter__`
(cluster.py lines 92-93): tuple comparison first tests the individuals with
Python `==`; when they are equal it compares the own indices, otherwise it
falls back to `SampledIndividual.__lt__` (sample.py lines 69-70), a strict
comparison of the sampling dates. -/
def tupLT (K : IndividualKind S) (a : S) (ia : Nat) (b : S) (ib : Nat) : Bool :=
  if K.eqb a b then decide (ia < ib) else decide (K.date a < K.date b)

/-- The two-iterable behaviour of `heapq.merge` as invoked by
`LazyUnion.__iter__`, yielding each element tagged with the constituent it
came from (`true` for `self.first`).  The flag `nf` records which side the
most recently (re)inserted heap entry belongs to: the CPython binary heap of
two entries compares that fresh entry against the other one with `<` only, so
when neither tuple is `<` the other, the root is the entry that was not
freshly inserted.  Initially `heapify` sifts the first iterable's entry, and
after every yield the exhausted slot is refilled from the side just yielded. -/
def mergeAux (K : IndividualKind S) : List S → List S → Bool → List (S × Bool)
  | [], bs, _ => bs.map (fun b => (b, false))
  | a :: as, [], _ => (a :: as).map (fun a => (a, true))
  | a :: as, b :: bs, nf =>
    if nf then
      if tupLT K a 0 b 1 then (a, true) :: mergeAux K as (b :: bs) true
      else (b, false) :: mergeAux K (a :: as) bs false
    else
      if tupLT K b 1 a 0 then (b, false) :: mergeAux K (a :: as) bs false
      else (a, true) :: mergeAux K as (b :: bs) true
  termination_by as bs _ => as.length + bs.length

/-- The loop body of `LazyUnion.__iter__` (cluster.py lines 94-101): walk the
merged, tagged sequence while remembering the last individual seen from each
constituent (`individuals[0]`, `individuals[1]`); yield each merged individual
combined with the last individual of the other constituent, or alone when the
other constituent has not produced one yet. -/
def unionYield (K : IndividualKind S) :
    List (S × Bool) → Option S → Option S → List S
  | [], _, _ => []
  | (x, side) :: rest, lastFst, lastSnd =>
    if side then
      (match lastSnd with
       | none => x
       | some y => K.add x y) :: unionYield K rest (some x) lastSnd
    else
      (match lastFst with
       | none => x
       | some y => K.add x y) :: unionYield K rest lastFst (some x)

/-- `LazyUnion.__iter__` (cluster.py lines 90-101) on the materialized
sequences of the two constituent clusters. -/
def lazyUnionIter (K : IndividualKind S) (as bs : List S) : List S :=
  unionYield K (mergeAux K as bs true) none none

/-- The shape of a cluster: a leaf is one entity's store contents iterated by
`RandomVariable.__iter__` (sample.py lines 14-16); a union is a `LazyUnion`
of two sub-clusters (cluster.py lines 83-88). -/
inductive ClusterE (S : Type) where
  | leaf (sample : List S)
  | union (first second : ClusterE S)


/-- `Cluster.__iter__` as realized by `RandomVariable` and `LazyUnion`. -/
def iterCluster (K : IndividualKind S) : ClusterE S → List S
  | .leaf sample => sample
  | .union first second =>
    lazyUnionIter K (iterCluster K first) (iterCluster K second)

/-- `Cluster.__add__` (cluster.py lines 52-56): the other operand is either a
cluster or the integer `0` (embedded as `none`), the neutral element; adding
`0` returns the cluster itself, otherwise the result is a `LazyUnion`. -/
def clusterAdd (c : ClusterE S) (other : Option (ClusterE S)) : ClusterE S :=
  match other with
  | none => c
  | some o => ClusterE.union c o

/-- `Cluster.__radd__` (cluster.py lines 58-59) delegates to `__add__`. -/
def clusterRAdd (c : ClusterE S) (other : Option (ClusterE S)) : ClusterE S :=
  clusterAdd c other

/-- A cluster is built from entity stores when every leaf holds store
contents, i.e. a date-sorted sample (the stores are `SortedSet`s ordered by
`SampledIndividual.__lt__`). -/
def leavesSorted (K : IndividualKind S) : ClusterE S → Prop
  | .leaf sample => sample.Pairwise (fun x y => K.date x ≤ K.date y)
  | .union first second => leavesSorted K first ∧ leavesSorted K second

/-- Insertion into the date-sorted list underlying a
`sortedcontainers.SortedSet` (bisect-right position: after every element whose
date is not greater, comparisons made through
`SampledIndividual.__lt__`). -/
def sortedInsert (s : GitHubRepository.Snapshot) :
    List GitHubRepository.Snapshot → List GitHubRepository.Snapshot
  | [] => [s]
  | b :: l => if s.date < b.date then s :: b :: l else b :: sortedInsert s l

/-- `GitHubRepository._add` (github.py lines 387-396), i.e. `SortedSet.add`
on the repository's sample: when a snapshot equal (by
`Snapshot.__eq__`/`__hash__`, hence same repository and date) to the new one
is already present, the addition is a silent no-op; otherwise the snapshot is
inserted at its date-sorted position. -/
def GitHubRepository.addSnapshot (store : List GitHubRepository.Snapshot)
    (s : GitHubRepository.Snapshot) : List GitHubRepository.Snapshot :=
  if store.any (fun t => GitHubRepository.Snapshot.eqb t s) then store
  else sortedInsert s store

/-- The `GitHubRepository._samples` registry (github.py line 374): a weak
mapping from repository URLs to sample stores.  Garbage collection is not
embedded: every registered store is retained, which models the spec scenario
in which at least one handle per URL stays reachable. -/
abbrev Registry := List (String × List GitHubRepository.Snapshot)

/-- `GitHubRepository.__init__` (github.py lines 376-385) restricted to its
effect on the registry: reuse the registered store for the URL when present,
otherwise register a fresh empty store.  The constructed handle is identified
by its URL. -/
def registerRepo (reg : Registry) (url : String) : Registry :=
  match reg.lookup url with
  | some _ => reg
  | none => (url, []) :: reg

/-- Appending a snapshot through a handle with the given URL: the handle's
`sample` is the store registered under the URL, which
`GitHubRepository._add` updates in place. -/
def registryAppend (reg : Registry) (url : String)
    (s : GitHubRepository.Snapshot) : Registry :=
  reg.map (fun p =>
    if p.1 = url then (p.1, GitHubRepository.addSnapshot p.2 s) else p)

/-- Reading `self.sample[-1]` (the latest snapshot) through a handle with the
given URL, `none` when the URL is unregistered or its store is empty. -/
def registryLatest (reg : Registry) (url : String) :
    Option GitHubRepository.Snapshot :=
  (reg.lookup url).bind List.getLast?

/-- The observable state of a `GitHubRepository` handle: its URL and the
current contents of its sample store. -/
structure GitHubRepository where
  url : String
  sample : List GitHubRepository.Snapshot

/-- Python string interpolation `"%s"` applied to a value that may be `None`. -/
def optStr : Option String → String
  | some s => s
  | none => "None"

/-- `GitHubRepository.getName` (github.py lines 398-402): the
`owner/title` of the latest snapshot when the sample is non-empty, otherwise
the owner and title split off the URL by `__init__`
(`url.split('/')[-2:]`; a URL without a slash would already have failed the
tuple unpacking in `__init__`, embedded as the empty-name fallback). -/
def GitHubRepository.getName (r : GitHubRepository) : String :=
  match r.sample.getLast? with
  | some s => optStr s.owner ++ "/" ++ optStr s.title
  | none =>
    match (r.url.splitOn "/").reverse with
    | title :: owner :: _ => owner ++ "/" ++ title
    | _ => ""

/-- `NamedEntity.__eq__` (namedentity.py lines 25-26) between two repository
handles: both operands are `NamedEntity` instances, so equality reduces to
equality of the display names. -/
def GitHubRepository.eqb (a b : GitHubRepository) : Bool :=
  a.getName == b.getName

/-- `GitHubRepository.__hash__` (github.py lines 445-446): the hash of the
URL.  The Python builtin string hash is embedded as an arbitrary function
`h`. -/
def GitHubRepository.hashWith (h : String → Nat) (r : GitHubRepository) : Nat :=
  h r.url

/-- `NamedEntity.__hash__` (namedentity.py lines 22-23): the hash of the
display name, under the same embedding of the builtin string hash. -/
def NamedEntity.hashWith (h : String → Nat) (name : String) : Nat :=
  h name

/-- The display name of a snapshot's owning repository handle while its store
holds exactly this snapshot: `getName` then formats the latest — only —
snapshot's owner and title.  This is the name `Snapshot.__eq__` consults (via
`NamedEntity.__eq__` on the handles) when two one-snapshot stores are
merged. -/
def GitHubRepository.Snapshot.ownerTitleName
    (s : GitHubRepository.Snapshot) : String :=
  optStr s.owner ++ "/" ++ optStr s.title

/-- A Python runtime value as far as `SampledIndividual.__init__` can observe
it: a class object, a `datetime` instance, or an `Individual` instance. -/
inductive PyValue where
  | typeObj (className : String)
  | datetimeObj (d : Nat)
  | individualObj (tag : Nat)
  deriving DecidableEq

/-- The class of a Python value. -/
def pyClassName : PyValue → String
  | .typeObj _ => "type"
  | .datetimeObj _ => "datetime"
  | .individualObj _ => "Individual"

/-- The builtin `isinstance(obj, cls)`: when `cls` is not a class object it
raises `TypeError: isinstance() arg 2 must be a type`, otherwise it reports
whether `obj` is an instance of the class. -/
def pyIsinstance (obj cls : PyValue) : Except String Bool :=
  match cls with
  | .typeObj n => .ok (pyClassName obj == n)
  | _ => .error "TypeError: isinstance() arg 2 must be a type"

/-- The state a successful run of `SampledIndividual.__init__` would
produce. -/
structure SampledIndividualState where
  individual : PyValue
  date : PyValue

/-- `SampledIndividual.__init__` (sample.py lines 55-59).  The second assert
is `assert isinstance(datetime, date)`: it passes the `datetime` class as the
object and the `date` argument as the would-be class, in swapped order. -/
def SampledIndividual.init (individual d : PyValue) :
    Except String SampledIndividualState := do
  let ok1 ← pyIsinstance individual (.typeObj "Individual")
  if !ok1 then throw "AssertionError"
  let ok2 ← pyIsinstance (.typeObj "datetime") d
  if !ok2 then throw "AssertionError"
  return { individual := individual, date := d }

/-- A language-ratio payload for concrete snapshots (`[("Other", 1.0)]`). -/
def otherLangs (date : Nat) : AverageRatios :=
  { date := date, sample := [[("Other", 1)]] }

/-- A concrete GitHub repository snapshot with the given repository URL,
owner, title, date and star count, all remaining counters zero. -/
def mkGH (repo owner title : Option String) (date : Nat) (stars : Int) :
    GitHubRepository.Snapshot :=
  { repository := repo, owner := owner, title := title, date := date,
    watching := 0, stars := stars, forks := 0, issues := 0, pullRequests := 0,
    projects := 0, commits := 0, branches := 0, releases := 0, licenses := ∅,
    languages := otherLangs date }

/-- A snapshot of entity X at timestamp 5 with value 1. -/
def c1x : GitHubRepository.Snapshot := mkGH (some "u/X") (some "u") (some "X") 5 1

/-- A snapshot of entity Y at timestamp 5 with value 2. -/
def c1y : GitHubRepository.Snapshot := mkGH (some "u/Y") (some "u") (some "Y") 5 2

/-- The snapshot (2020-01-01, stars=10) of entity repo/A, the date written
as the number 20200101. -/
def c2a1 : GitHubRepository.Snapshot :=
  mkGH (some "repo/A") (some "repo") (some "A") 20200101 10

/-- The snapshot (2020-02-01, stars=20) of entity repo/A. -/
def c2a2 : GitHubRepository.Snapshot :=
  mkGH (some "repo/A") (some "repo") (some "A") 20200201 20

/-- The snapshot (2020-01-01, stars=5) of entity repo/B. -/
def c2b1 : GitHubRepository.Snapshot :=
  mkGH (some "repo/B") (some "repo") (some "B") 20200101 5

/-- A SoundCloud snapshot at timestamp 1. -/
def c3a : SoundCloudTrack.Snapshot :=
  SoundCloudTrack.Snapshot.mk' (some "t/a") (some "a") 1 10 0 0 3

/-- A SoundCloud snapshot at the later timestamp 2. -/
def c3b : SoundCloudTrack.Snapshot :=
  SoundCloudTrack.Snapshot.mk' (some "t/b") (some "b") 2 20 0 0 4

/-- A snapshot with stars=10 at timestamp 1 of the repository u/R. -/
def c4s1 : GitHubRepository.Snapshot := mkGH (some "u/R") (some "u") (some "R") 1 10

/-- A snapshot of the same repository u/R at the same timestamp 1, carrying
the differing value stars=20. -/
def c4s2 : GitHubRepository.Snapshot := mkGH (some "u/R") (some "u") (some "R") 1 20

/-- A concrete cluster for exercising sortedness: the union of a two-snapshot
store and a one-snapshot store. -/
def c5c : ClusterE GitHubRepository.Snapshot :=
  ClusterE.union
    (ClusterE.leaf [mkGH (some "u/P") (some "u") (some "P") 1 1,
                    mkGH (some "u/P") (some "u") (some "P") 3 2])
    (ClusterE.leaf [mkGH (some "u/Q") (some "u") (some "Q") 2 7])

/-- A concrete snapshot populating a non-empty cluster. -/
def c6x : GitHubRepository.Snapshot := mkGH (some "u/M") (some "u") (some "M") 4 9

/-- A concrete snapshot at timestamp 1 for commutativity. -/
def c7a : GitHubRepository.Snapshot := mkGH (some "u/C") (some "u") (some "C") 1 2

/-- A concrete snapshot at the disjoint timestamp 2 for commutativity. -/
def c7b : GitHubRepository.Snapshot := mkGH (some "u/D") (some "u") (some "D") 2 3

/-- A repository handle whose latest snapshot names it x/y, built from a
short URL. -/
def c8r1 : GitHubRepository :=
  { url := "gh/x/y", sample := [mkGH (some "gh/x/y") (some "x") (some "y") 1 0] }

/-- A repository handle whose latest snapshot also names it x/y, built from a
longer URL. -/
def c8r2 : GitHubRepository :=
  { url := "github.example/x/y",
    sample := [mkGH (some "github.example/x/y") (some "x") (some "y") 1 0] }

/-- A snapshot appended through the first of two handles of the same URL. -/
def c9s : GitHubRepository.Snapshot := mkGH (some "u/S") (some "u") (some "S") 1 6

/-! Theorems. -/

/-- C10: for every Individual `i` and every datetime instance `d`, calling
`SampledIndividual.__init__` directly raises an exception and never produces a
value, because its second type check passes the `datetime` class and the
argument to `isinstance` in swapped order. -/
theorem C10_init_always_raises (tag d : Nat) :
    SampledIndividual.init (.individualObj tag) (.datetimeObj d) =
      .error "TypeError: isinstance() arg 2 must be a type" := rfl

/-- C3 counterexample: combining two SoundCloud snapshots of the same kind
does not return a snapshot carrying the maximum of the two timestamps — the
left operand's timestamp (1) is kept even though the other operand is
later (2). -/
theorem C3_counterexample :
    (SoundCloudTrack.Snapshot.add c3a c3b).date ≠ max c3a.date c3b.date := by
  decide

/-- C3 amended: combining two GitHub snapshots takes the maximum of the two
timestamps, sums every additive counter, unions the license sets,
recursively combines the language ratios, and nulls the identity-only fields;
combining two SoundCloud snapshots keeps the left operand's timestamp
(not the maximum), sums every additive counter, recomputes the likes/plays
ratio, and nulls the identity-only fields. -/
theorem C3_combine_fields :
    (∀ a b : GitHubRepository.Snapshot,
      (a.add b).date = max a.date b.date ∧
      (a.add b).watching = a.watching + b.watching ∧
      (a.add b).stars = a.stars + b.stars ∧
      (a.add b).forks = a.forks + b.forks ∧
      (a.add b).issues = a.issues + b.issues ∧
      (a.add b).pullRequests = a.pullRequests + b.pullRequests ∧
      (a.add b).projects = a.projects + b.projects ∧
      (a.add b).commits = a.commits + b.commits ∧
      (a.add b).branches = a.branches + b.branches ∧
      (a.add b).releases = a.releases + b.releases ∧
      (a.add b).licenses = a.licenses ∪ b.licenses ∧
      (a.add b).languages = a.languages.add b.languages ∧
      (a.add b).repository = none ∧ (a.add b).owner = none ∧
      (a.add b).title = none) ∧
    (∀ a b : SoundCloudTrack.Snapshot,
      (a.add b).date = a.date ∧
      (a.add b).plays = a.plays + b.plays ∧
      (a.add b).downloads = a.downloads + b.downloads ∧
      (a.add b).comments = a.comments + b.comments ∧
      (a.add b).likes = a.likes + b.likes ∧
      (a.add b).likesPerPlays = fraction (a.likes + b.likes) (a.plays + b.plays) ∧
      (a.add b).track = none ∧ (a.add b).title = none) :=
  ⟨fun _ _ => ⟨rfl, rfl, rfl, rfl, rfl, rfl, rfl, rfl, rfl, rfl, rfl, rfl, rfl,
    rfl, rfl⟩,
   fun _ _ => ⟨rfl, rfl, rfl, rfl, rfl, rfl, rfl, rfl⟩⟩

/-- C4 counterexample: appending a second snapshot of the same repository at
the exact same timestamp with a differing star count neither raises an error
(`SortedSet.add` returns normally) nor applies last-write-wins — the store
afterwards still holds only the originally appended value 10, not 20. -/
theorem C4_counterexample :
    GitHubRepository.addSnapshot [c4s1] c4s2 = [c4s1] ∧
    c4s1.stars = 10 ∧ c4s2.stars = 20 ∧ c4s1.date = c4s2.date := by
  decide

/-- C4 amended: appending a snapshot while the store already holds a snapshot
equal to it (same repository and timestamp, regardless of a differing value)
is silently ignored: the store is returned unchanged, so the first-written
value wins. -/
theorem C4_duplicate_timestamp_silent_drop
    (store : List GitHubRepository.Snapshot) (s t : GitHubRepository.Snapshot)
    (ht : t ∈ store) (heq : GitHubRepository.Snapshot.eqb t s = true) :
    GitHubRepository.addSnapshot store s = store := by
  unfold GitHubRepository.addSnapshot
  rw [if_pos]
  exact List.any_eq_true.mpr ⟨t, ht, heq⟩

/-- Witness for the amended C4 on the concrete duplicate pair. -/
theorem C4_witness : GitHubRepository.addSnapshot [c4s1] c4s2 = [c4s1] :=
  C4_duplicate_timestamp_silent_drop [c4s1] c4s2 c4s1 (by simp) (by decide)

/-- C8 counterexample: two differently-constructed repository handles sharing
the display name x/y compare equal, yet their hashes are computed from their
distinct URLs, so under the (unspecified) builtin string hash — exhibited
here as `String.length` — equal names do not imply equal hashes. -/
theorem C8_counterexample :
    GitHubRepository.eqb c8r1 c8r2 = true ∧
    GitHubRepository.hashWith String.length c8r1 ≠
      GitHubRepository.hashWith String.length c8r2 := by
  decide

/-- C8 amended: equality of named entities derives solely from the display
name — two repository handles compare equal exactly when their names agree,
regardless of construction — but `GitHubRepository.__hash__` derives from the
URL, not the name (only the inherited `NamedEntity.__hash__` hashes the
name), so equal names need not give equal hashes. -/
theorem C8_name_equality_url_hash :
    (∀ a b : GitHubRepository,
      GitHubRepository.eqb a b = true ↔ a.getName = b.getName) ∧
    (∀ (h : String → Nat) (r : GitHubRepository),
      GitHubRepository.hashWith h r = h r.url) ∧
    (∀ (h : String → Nat) (n : String), NamedEntity.hashWith h n = h n) :=
  ⟨fun a b => by simp [GitHubRepository.eqb], fun _ _ => rfl, fun _ _ => rfl⟩

/-- C2 counterexample: iterating `cluster(A) + cluster(B)` over the concrete
stores of repo/A and repo/B does not yield the two-element sequence
(2020-01-01, stars=15), (2020-02-01, stars=20). -/
theorem C2_counterexample :
    (iterCluster ghKind
        (clusterAdd (.leaf [c2a1, c2a2]) (some (.leaf [c2b1])))).map
      (fun s => (s.date, s.stars)) ≠ [(20200101, 15), (20200201, 20)] := by
  simp [clusterAdd, iterCluster, lazyUnionIter, mergeAux, unionYield, tupLT,
    ghKind, GitHubRepository.Snapshot.eqb, GitHubRepository.Snapshot.add,
    c2a1, c2a2, c2b1, mkGH]

/-- C2 amended: iterating `cluster(A) + cluster(B)` over the concrete stores
of repo/A and repo/B yields three individuals, one per constituent snapshot:
(2020-01-01, stars=5) — repo/B's snapshot yielded before repo/A's
contribution at the tied timestamp has been seen — then (2020-01-01,
stars=15), then (2020-02-01, stars=25) — repo/A's later snapshot combined
with repo/B's last seen snapshot. -/
theorem C2_concrete_union_trace :
    (iterCluster ghKind
        (clusterAdd (.leaf [c2a1, c2a2]) (some (.leaf [c2b1])))).map
      (fun s => (s.date, s.stars)) =
      [(20200101, 5), (20200101, 15), (20200201, 25)] := by
  simp [clusterAdd, iterCluster, lazyUnionIter, mergeAux, unionYield, tupLT,
    ghKind, GitHubRepository.Snapshot.eqb, GitHubRepository.Snapshot.add,
    c2a1, c2a2, c2b1, mkGH]

/-- Walking a merged sequence that came entirely from the first constituent
never records a last individual for the second, so every element is yielded
alone. -/
theorem unionYield_map_true (K : IndividualKind S) (as : List S) :
    ∀ lf : Option S, unionYield K (as.map fun a => (a, true)) lf none = as := by
  induction as with
  | nil => intro lf; rfl
  | cons a as ih => intro lf; simp [unionYield, ih]

/-- Merging against an exhausted second iterable yields the first iterable's
elements in order. -/
theorem mergeAux_nil_right (K : IndividualKind S) (as : List S) (nf : Bool) :
    mergeAux K as [] nf = as.map (fun a => (a, true)) := by
  cases as <;> simp [mergeAux]

/-- A lazy union with an empty second constituent yields the first
constituent's sequence unchanged. -/
theorem lazyUnionIter_nil_right (K : IndividualKind S) (as : List S) :
    lazyUnionIter K as [] = as := by
  unfold lazyUnionIter
  rw [mergeAux_nil_right, unionYield_map_true]

/-- C6: adding the neutral element 0 to a cluster returns the cluster itself,
from either side, and the union of a cluster with an empty cluster iterates
exactly as the cluster alone. -/
theorem C6_identity (S : Type) (K : IndividualKind S) :
    (∀ A : ClusterE S, clusterAdd A none = A) ∧
    (∀ A : ClusterE S, clusterRAdd A none = A) ∧
    (∀ A E : ClusterE S, iterCluster K E = [] →
      iterCluster K (clusterAdd A (some E)) = iterCluster K A) := by
  refine ⟨fun _ => rfl, fun _ => rfl, fun A E hE => ?_⟩
  show lazyUnionIter K (iterCluster K A) (iterCluster K E) = iterCluster K A
  rw [hE, lazyUnionIter_nil_right]

/-- Witness for C6 on a concrete non-empty cluster and the empty cluster. -/
theorem C6_witness :
    clusterAdd (ClusterE.leaf [c6x]) none = ClusterE.leaf [c6x] ∧
    clusterRAdd (ClusterE.leaf [c6x]) none = ClusterE.leaf [c6x] ∧
    iterCluster ghKind (clusterAdd (ClusterE.leaf [c6x]) (some (ClusterE.leaf []))) =
      iterCluster ghKind (ClusterE.leaf [c6x]) :=
  ⟨(C6_identity _ ghKind).1 _, (C6_identity _ ghKind).2.1 _,
   (C6_identity _ ghKind).2.2 _ _ rfl⟩

/-- Registering a URL leaves the registry with a store under that URL. -/
theorem lookup_registerRepo (reg : Registry) (url : String) :
    ∃ l, (registerRepo reg url).lookup url = some l := by
  unfold registerRepo
  cases h : reg.lookup url with
  | some l => exact ⟨l, by simp [h]⟩
  | none => exact ⟨[], by simp [List.lookup]⟩

/-- Constructing a second handle with an already registered URL does not
change the registry: the existing store is shared. -/
theorem registerRepo_idem (reg : Registry) (url : String) :
    registerRepo (registerRepo reg url) url = registerRepo reg url := by
  obtain ⟨l, hl⟩ := lookup_registerRepo reg url
  conv_lhs => rw [registerRepo.eq_def]
  rw [hl]

/-- Appending through a handle updates exactly the store registered under the
handle's URL. -/
theorem lookup_registryAppend (reg : Registry) (url : String)
    (s : GitHubRepository.Snapshot) :
    (registryAppend reg url s).lookup url =
      (reg.lookup url).map (fun l => GitHubRepository.addSnapshot l s) := by
  induction reg with
  | nil => rfl
  | cons p rest ih =>
    obtain ⟨k, v⟩ := p
    simp only [registryAppend, List.map_cons] at *
    by_cases hk : k = url
    · subst hk
      rw [if_pos rfl]
      simp [List.lookup]
    · rw [if_neg hk]
      have hbeq : (url == k) = false := by simp [Ne.symm hk]
      simp [List.lookup, hbeq, ih]

/-- Inserting a snapshot no earlier than every stored one puts it at the
end. -/
theorem sortedInsert_of_forall_le (s : GitHubRepository.Snapshot)
    (l : List GitHubRepository.Snapshot) (h : ∀ b ∈ l, ¬ s.date < b.date) :
    sortedInsert s l = l ++ [s] := by
  induction l with
  | nil => rfl
  | cons b l ih =>
    rw [sortedInsert, if_neg (h b (List.mem_cons_self b l))]
    simp only [List.cons_append, List.cons.injEq, true_and]
    exact ih (fun b hb => h b (List.mem_cons_of_mem _ hb))

/-- Appending a snapshot strictly later than every stored one appends it at
the end of the store. -/
theorem addSnapshot_append (store : List GitHubRepository.Snapshot)
    (s : GitHubRepository.Snapshot) (hlt : ∀ t ∈ store, t.date < s.date) :
    GitHubRepository.addSnapshot store s = store ++ [s] := by
  unfold GitHubRepository.addSnapshot
  rw [if_neg, sortedInsert_of_forall_le]
  · exact fun b hb => Nat.lt_asymm (hlt b hb)
  · intro hany
    obtain ⟨t, ht, heq⟩ := List.any_eq_true.mp hany
    have hdate : t.date = s.date := by
      have := (Bool.and_eq_true _ _).mp heq |>.2
      simpa using this
    exact absurd hdate (Nat.ne_of_lt (hlt t ht))

/-- C9: building two repository handles with the same URL shares one sample
store — the second construction leaves the registry unchanged — and after
appending a snapshot later than everything stored through the first handle,
reading the latest entry through the second handle returns the appended
snapshot.  (Garbage collection of the weak registry is not embedded; the
registry models the period during which at least one handle stays
reachable.) -/
theorem C9_registry_sharing (reg : Registry) (url : String)
    (s : GitHubRepository.Snapshot)
    (hfresh : ∀ t ∈ ((registerRepo (registerRepo reg url) url).lookup url).getD [],
      t.date < s.date) :
    registerRepo (registerRepo reg url) url = registerRepo reg url ∧
    registryLatest
      (registryAppend (registerRepo (registerRepo reg url) url) url s) url =
      some s := by
  refine ⟨registerRepo_idem reg url, ?_⟩
  obtain ⟨l, hl⟩ := lookup_registerRepo reg url
  have hl2 : (registerRepo (registerRepo reg url) url).lookup url = some l := by
    rw [registerRepo_idem]; exact hl
  have hlt : ∀ t ∈ l, t.date < s.date := by
    intro t ht
    apply hfresh
    rw [hl2]
    simpa using ht
  unfold registryLatest
  rw [lookup_registryAppend, hl2, Option.map_some']
  show List.getLast? (GitHubRepository.addSnapshot l s) = some s
  rw [addSnapshot_append l s hlt]
  simp

/-- Witness for C9: a fresh registry, one URL registered twice, one snapshot
appended. -/
theorem C9_witness :
    registerRepo (registerRepo ([] : Registry) "u/S") "u/S" =
      registerRepo [] "u/S" ∧
    registryLatest
      (registryAppend (registerRepo (registerRepo ([] : Registry) "u/S") "u/S")
        "u/S" c9s) "u/S" = some c9s :=
  C9_registry_sharing [] "u/S" c9s (by simp [registerRepo, List.lookup])

/-- The walk over the merged sequence yields exactly one individual per
merged element. -/
theorem unionYield_length (K : IndividualKind S) :
    ∀ (l : List (S × Bool)) (lf ls : Option S),
      (unionYield K l lf ls).length = l.length := by
  intro l
  induction l with
  | nil => intro lf ls; rfl
  | cons p rest ih =>
    obtain ⟨x, side⟩ := p
    intro lf ls
    cases side <;> simp [unionYield, ih]

/-- The merge of two sequences has one element per constituent element. -/
theorem mergeAux_length (K : IndividualKind S) (as bs : List S) (nf : Bool) :
    (mergeAux K as bs nf).length = as.length + bs.length := by
  induction as, bs, nf using mergeAux.induct K with
  | case1 bs nf => simp [mergeAux]
  | case2 a as nf => simp [mergeAux]
  | case3 a as b bs h ih =>
    simp only [mergeAux, if_pos h, if_true, List.length_cons, ih,
      List.length_cons]
    omega
  | case4 a as b bs h ih =>
    simp only [mergeAux, if_neg h, if_true, List.length_cons, ih,
      List.length_cons]
    omega
  | case5 a as b bs nf hnf h ih =>
    have hnf' : nf = false := by simpa using hnf
    subst hnf'
    simp only [mergeAux, if_pos h, if_false, Bool.false_eq_true,
      List.length_cons, ih]
    omega
  | case6 a as b bs nf hnf h ih =>
    have hnf' : nf = false := by simpa using hnf
    subst hnf'
    simp only [mergeAux, if_neg h, if_false, Bool.false_eq_true,
      List.length_cons, ih]
    omega

/-- C1 counterexample: with X holding one snapshot at timestamp 5 and Y one
snapshot at the same timestamp, iterating `cluster(X) + cluster(Y)` does not
yield exactly one individual at that timestamp (it yields two). -/
theorem C1_counterexample :
    ((iterCluster ghKind (clusterAdd (.leaf [c1x]) (some (.leaf [c1y])))).filter
        (fun s => s.date == 5)).length ≠ 1 := by
  simp [clusterAdd, iterCluster, lazyUnionIter, mergeAux, unionYield, tupLT,
    ghKind, GitHubRepository.Snapshot.eqb, GitHubRepository.Snapshot.add,
    c1x, c1y, mkGH]

/-- C1 amended: with X's store holding one snapshot at timestamp T and Y's
store one snapshot at the same T — the two repositories being distinct (their
URLs differ) and carrying distinct display names, so that `Snapshot.__eq__`,
which compares the handles by name, is false and the heap tie falls through
to the strict date comparison — iterating `cluster(X) + cluster(Y)` yields
two individuals at T, not one: first Y's snapshot alone (the tie is yielded
from the second constituent before the first constituent's snapshot is
seen), then `combine(v1, v2)`; in general a union's iteration yields exactly
one individual per constituent sample, so its length is the sum of the
constituent lengths, not the number of distinct timestamps. -/
theorem C1_union_per_sample (x y : GitHubRepository.Snapshot)
    (hd : x.date = y.date) (hr : x.repository ≠ y.repository)
    (hn : x.ownerTitleName ≠ y.ownerTitleName) :
    iterCluster ghKind (clusterAdd (.leaf [x]) (some (.leaf [y]))) =
      [y, x.add y] ∧
    ∀ (T : Type) (K : IndividualKind T) (as bs : List T),
      (lazyUnionIter K as bs).length = as.length + bs.length := by
  constructor
  · have hb : (x.repository == y.repository) = false := beq_eq_false_iff_ne.mpr hr
    have heqb : GitHubRepository.Snapshot.eqb x y = false := by
      simp [GitHubRepository.Snapshot.eqb, hb]
    have htup : tupLT ghKind x 0 y 1 = false := by
      simp [tupLT, ghKind, heqb, hd]
    have hm : mergeAux ghKind [x] [y] true = [(y, false), (x, true)] := by
      simp [mergeAux, htup]
    show lazyUnionIter ghKind [x] [y] = [y, x.add y]
    unfold lazyUnionIter
    rw [hm]
    rfl
  · intro T K as bs
    unfold lazyUnionIter
    rw [unionYield_length, mergeAux_length]

/-- Witness for the amended C1 at the concrete snapshots of X and Y. -/
theorem C1_witness :
    iterCluster ghKind (clusterAdd (.leaf [c1x]) (some (.leaf [c1y]))) =
      [c1y, GitHubRepository.Snapshot.add c1x c1y] ∧
    (lazyUnionIter ghKind [c1x] [c1y, c1y]).length = 1 + 2 :=
  ⟨(C1_union_per_sample c1x c1y rfl (by decide) (by decide)).1,
   (C1_union_per_sample c1x c1y rfl (by decide) (by decide)).2 _ ghKind
     [c1x] [c1y, c1y]⟩

/-- When the constituents carry pairwise distinct dates, swapping them swaps
the merge's tags but leaves its element order unchanged: every comparison is
then a strict date comparison, independent of the tie-breaking flag. -/
theorem mergeAux_swap (K : IndividualKind S)
    (heqb : ∀ x y, K.eqb x y = true → K.date x = K.date y) :
    ∀ (n : Nat) (as bs : List S), as.length + bs.length ≤ n →
      (∀ a ∈ as, ∀ b ∈ bs, K.date a ≠ K.date b) → ∀ nf1 nf2 : Bool,
      mergeAux K as bs nf1 =
        (mergeAux K bs as nf2).map (fun p => (p.1, !p.2)) := by
  intro n
  induction n with
  | zero =>
    intro as bs hle _ nf1 nf2
    match as, bs with
    | [], [] => simp [mergeAux]
    | a :: as, bs => simp at hle
    | [], b :: bs => simp at hle
  | succ n ih =>
    intro as bs hle hdisj nf1 nf2
    match as, bs with
    | [], bs =>
      simp [mergeAux, mergeAux_nil_right, List.map_map, Function.comp_def]
    | a :: as, [] =>
      simp [mergeAux, mergeAux_nil_right, List.map_map, Function.comp_def]
    | a :: as, b :: bs =>
      have hne : K.date a ≠ K.date b :=
        hdisj a (List.mem_cons_self a as) b (List.mem_cons_self b bs)
      have he1 : K.eqb a b = false := by
        cases h : K.eqb a b
        · rfl
        · exact absurd (heqb _ _ h) hne
      have he2 : K.eqb b a = false := by
        cases h : K.eqb b a
        · rfl
        · exact absurd (heqb _ _ h).symm hne
      have hd1 : ∀ x ∈ as, ∀ y ∈ b :: bs, K.date x ≠ K.date y :=
        fun x hx y hy => hdisj x (List.mem_cons_of_mem a hx) y hy
      have hd2 : ∀ x ∈ a :: as, ∀ y ∈ bs, K.date x ≠ K.date y :=
        fun x hx y hy => hdisj x hx y (List.mem_cons_of_mem b hy)
      have hl1 : as.length + (b :: bs).length ≤ n := by
        simp at hle ⊢
        omega
      have hl2 : (a :: as).length + bs.length ≤ n := by
        simp at hle ⊢
        omega
      rcases Nat.lt_or_ge (K.date a) (K.date b) with hab | hge
      · have hnb : ¬ K.date b < K.date a := Nat.lt_asymm hab
        have hL : mergeAux K (a :: as) (b :: bs) nf1 =
            (a, true) :: mergeAux K as (b :: bs) true := by
          cases nf1 <;> simp [mergeAux, tupLT, he1, he2, hab, hnb]
        have hR : mergeAux K (b :: bs) (a :: as) nf2 =
            (a, false) :: mergeAux K (b :: bs) as false := by
          cases nf2 <;> simp [mergeAux, tupLT, he1, he2, hab, hnb]
        rw [hL, hR, List.map_cons]
        exact congrArg _ (ih as (b :: bs) hl1 hd1 true false)
      · have hba : K.date b < K.date a := Nat.lt_of_le_of_ne hge (Ne.symm hne)
        have hna : ¬ K.date a < K.date b := Nat.lt_asymm hba
        have hL : mergeAux K (a :: as) (b :: bs) nf1 =
            (b, false) :: mergeAux K (a :: as) bs false := by
          cases nf1 <;> simp [mergeAux, tupLT, he1, he2, hba, hna]
        have hR : mergeAux K (b :: bs) (a :: as) nf2 =
            (b, true) :: mergeAux K bs (a :: as) true := by
          cases nf2 <;> simp [mergeAux, tupLT, he1, he2, hba, hna]
        rw [hL, hR, List.map_cons]
        exact congrArg _ (ih (a :: as) bs hl2 hd2 false true)

/-- Swapping the tags of a merged sequence swaps the two last-seen slots of
the yielding walk. -/
theorem unionYield_swap (K : IndividualKind S) :
    ∀ (l : List (S × Bool)) (lf ls : Option S),
      unionYield K (l.map (fun p => (p.1, !p.2))) lf ls =
        unionYield K l ls lf := by
  intro l
  induction l with
  | nil => intro lf ls; rfl
  | cons p rest ih =>
    obtain ⟨x, side⟩ := p
    intro lf ls
    cases side <;> simp [unionYield, ih]

/-- With cross-disjoint dates, the lazy union yields the same sequence
whichever constituent comes first. -/
theorem lazyUnionIter_comm (K : IndividualKind S)
    (heqb : ∀ x y, K.eqb x y = true → K.date x = K.date y) (as bs : List S)
    (hdisj : ∀ a ∈ as, ∀ b ∈ bs, K.date a ≠ K.date b) :
    lazyUnionIter K as bs = lazyUnionIter K bs as := by
  unfold lazyUnionIter
  rw [mergeAux_swap K heqb (as.length + bs.length) as bs le_rfl hdisj true true,
    unionYield_swap]

/-- The Python equality of GitHub snapshots implies equality of their
dates. -/
theorem ghKind_eqb_date (x y : GitHubRepository.Snapshot)
    (h : ghKind.eqb x y = true) : ghKind.date x = ghKind.date y := by
  simp only [ghKind, GitHubRepository.Snapshot.eqb, Bool.and_eq_true,
    beq_iff_eq] at h
  exact h.2

/-- C7: for clusters A and B whose individuals have pairwise disjoint
timestamps, `A + B` and `B + A` yield the same set of (timestamp, combined
value) pairs — in fact the same sequence. -/
theorem C7_commutativity (S : Type) [DecidableEq S] (K : IndividualKind S)
    (heqb : ∀ x y, K.eqb x y = true → K.date x = K.date y) (A B : ClusterE S)
    (hdisj : ∀ a ∈ iterCluster K A, ∀ b ∈ iterCluster K B,
      K.date a ≠ K.date b) :
    ((iterCluster K (clusterAdd A (some B))).map
        (fun s => (K.date s, s))).toFinset =
      ((iterCluster K (clusterAdd B (some A))).map
        (fun s => (K.date s, s))).toFinset := by
  have h : iterCluster K (clusterAdd A (some B)) =
      iterCluster K (clusterAdd B (some A)) := by
    show lazyUnionIter K (iterCluster K A) (iterCluster K B) =
      lazyUnionIter K (iterCluster K B) (iterCluster K A)
    exact lazyUnionIter_comm K heqb _ _ hdisj
  rw [h]

/-- Witness for C7 on two concrete one-snapshot clusters with disjoint
timestamps. -/
theorem C7_witness :
    ((iterCluster ghKind (clusterAdd (.leaf [c7a]) (some (.leaf [c7b])))).map
        (fun s => (ghKind.date s, s))).toFinset =
      ((iterCluster ghKind (clusterAdd (.leaf [c7b]) (some (.leaf [c7a])))).map
        (fun s => (ghKind.date s, s))).toFinset :=
  C7_commutativity _ ghKind ghKind_eqb_date _ _ (by decide)

/-- Every merged element comes from one of the two constituents. -/
theorem mergeAux_mem (K : IndividualKind S) (as bs : List S) (nf : Bool) :
    ∀ p ∈ mergeAux K as bs nf, p.1 ∈ as ∨ p.1 ∈ bs := by
  induction as, bs, nf using mergeAux.induct K with
  | case1 bs nf =>
    intro p hp
    simp only [mergeAux, List.mem_map] at hp
    obtain ⟨b, hb, rfl⟩ := hp
    exact Or.inr hb
  | case2 a as nf =>
    intro p hp
    simp only [mergeAux, List.mem_map] at hp
    obtain ⟨x, hx, rfl⟩ := hp
    exact Or.inl hx
  | case3 a as b bs h ih =>
    intro p hp
    rw [show mergeAux K (a :: as) (b :: bs) true =
      (a, true) :: mergeAux K as (b :: bs) true from by simp [mergeAux, h]] at hp
    rcases List.mem_cons.mp hp with rfl | hp'
    · exact Or.inl (List.mem_cons_self a as)
    · rcases ih p hp' with hx | hx
      · exact Or.inl (List.mem_cons_of_mem a hx)
      · exact Or.inr hx
  | case4 a as b bs h ih =>
    intro p hp
    rw [show mergeAux K (a :: as) (b :: bs) true =
      (b, false) :: mergeAux K (a :: as) bs false from by simp [mergeAux, h]] at hp
    rcases List.mem_cons.mp hp with rfl | hp'
    · exact Or.inr (List.mem_cons_self b bs)
    · rcases ih p hp' with hx | hx
      · exact Or.inl hx
      · exact Or.inr (List.mem_cons_of_mem b hx)
  | case5 a as b bs nf hnf h ih =>
    have hnf' : nf = false := by simpa using hnf
    subst hnf'
    intro p hp
    rw [show mergeAux K (a :: as) (b :: bs) false =
      (b, false) :: mergeAux K (a :: as) bs false from by simp [mergeAux, h]] at hp
    rcases List.mem_cons.mp hp with rfl | hp'
    · exact Or.inr (List.mem_cons_self b bs)
    · rcases ih p hp' with hx | hx
      · exact Or.inl hx
      · exact Or.inr (List.mem_cons_of_mem b hx)
  | case6 a as b bs nf hnf h ih =>
    have hnf' : nf = false := by simpa using hnf
    subst hnf'
    intro p hp
    rw [show mergeAux K (a :: as) (b :: bs) false =
      (a, true) :: mergeAux K as (b :: bs) true from by simp [mergeAux, h]] at hp
    rcases List.mem_cons.mp hp with rfl | hp'
    · exact Or.inl (List.mem_cons_self a as)
    · rcases ih p hp' with hx | hx
      · exact Or.inl (List.mem_cons_of_mem a hx)
      · exact Or.inr hx

/-- The merge of two date-sorted sequences is date-sorted, for any kind whose
Python equality entails date equality. -/
theorem mergeAux_sorted (K : IndividualKind S)
    (heqb : ∀ x y, K.eqb x y = true → K.date x = K.date y) (as bs : List S)
    (nf : Bool) (has : as.Pairwise (fun x y => K.date x ≤ K.date y))
    (hbs : bs.Pairwise (fun x y => K.date x ≤ K.date y)) :
    (mergeAux K as bs nf).Pairwise (fun p q => K.date p.1 ≤ K.date q.1) := by
  induction as, bs, nf using mergeAux.induct K with
  | case1 bs nf =>
    simpa only [mergeAux, List.pairwise_map] using hbs
  | case2 a as nf =>
    simpa only [mergeAux, List.pairwise_map] using has
  | case3 a as b bs h ih =>
    obtain ⟨hahead, has'⟩ := List.pairwise_cons.mp has
    have hab : K.date a ≤ K.date b := by
      by_cases he : K.eqb a b = true
      · exact Nat.le_of_eq (heqb _ _ he)
      · have hd : K.date a < K.date b := by
          have := h
          simp only [tupLT, he, if_false, Bool.false_eq_true, if_neg he,
            decide_eq_true_eq] at this
          exact this
        exact Nat.le_of_lt hd
    rw [show mergeAux K (a :: as) (b :: bs) true =
      (a, true) :: mergeAux K as (b :: bs) true from by simp [mergeAux, h]]
    refine List.pairwise_cons.mpr ⟨?_, ih has' hbs⟩
    intro q hq
    rcases mergeAux_mem K as (b :: bs) true q hq with hx | hx
    · exact hahead q.1 hx
    · rcases List.mem_cons.mp hx with hqb | hqbs
      · rw [hqb]; exact hab
      · exact hab.trans ((List.pairwise_cons.mp hbs).1 q.1 hqbs)
  | case4 a as b bs h ih =>
    obtain ⟨hbhead, hbs'⟩ := List.pairwise_cons.mp hbs
    have he : K.eqb a b = false := by
      cases hcase : K.eqb a b
      · rfl
      · exact absurd (by simp [tupLT, hcase]) h
    have hba : K.date b ≤ K.date a := by
      have : ¬ K.date a < K.date b := by
        intro hd
        exact h (by simp [tupLT, he, hd])
      omega
    rw [show mergeAux K (a :: as) (b :: bs) true =
      (b, false) :: mergeAux K (a :: as) bs false from by simp [mergeAux, h]]
    refine List.pairwise_cons.mpr ⟨?_, ih has hbs'⟩
    intro q hq
    rcases mergeAux_mem K (a :: as) bs false q hq with hx | hx
    · rcases List.mem_cons.mp hx with hqa | hqas
      · rw [hqa]; exact hba
      · exact hba.trans ((List.pairwise_cons.mp has).1 q.1 hqas)
    · exact hbhead q.1 hx
  | case5 a as b bs nf hnf h ih =>
    have hnf' : nf = false := by simpa using hnf
    subst hnf'
    obtain ⟨hbhead, hbs'⟩ := List.pairwise_cons.mp hbs
    have hba : K.date b ≤ K.date a := by
      by_cases he : K.eqb b a = true
      · exact Nat.le_of_eq (heqb _ _ he)
      · have hd : K.date b < K.date a := by
          have := h
          simp only [tupLT, he, if_false, Bool.false_eq_true,
            decide_eq_true_eq] at this
          exact this
        exact Nat.le_of_lt hd
    rw [show mergeAux K (a :: as) (b :: bs) false =
      (b, false) :: mergeAux K (a :: as) bs false from by simp [mergeAux, h]]
    refine List.pairwise_cons.mpr ⟨?_, ih has hbs'⟩
    intro q hq
    rcases mergeAux_mem K (a :: as) bs false q hq with hx | hx
    · rcases List.mem_cons.mp hx with hqa | hqas
      · rw [hqa]; exact hba
      · exact hba.trans ((List.pairwise_cons.mp has).1 q.1 hqas)
    · exact hbhead q.1 hx
  | case6 a as b bs nf hnf h ih =>
    have hnf' : nf = false := by simpa using hnf
    subst hnf'
    obtain ⟨hahead, has'⟩ := List.pairwise_cons.mp has
    have hab : K.date a ≤ K.date b := by
      by_cases he : K.eqb b a = true
      · exact Nat.le_of_eq (heqb _ _ he).symm
      · have : ¬ K.date b < K.date a := by
          intro hd
          exact h (by simp [tupLT, he, hd])
        omega
    rw [show mergeAux K (a :: as) (b :: bs) false =
      (a, true) :: mergeAux K as (b :: bs) true from by simp [mergeAux, h]]
    refine List.pairwise_cons.mpr ⟨?_, ih has' hbs⟩
    intro q hq
    rcases mergeAux_mem K as (b :: bs) true q hq with hx | hx
    · exact hahead q.1 hx
    · rcases List.mem_cons.mp hx with hqb | hqbs
      · rw [hqb]; exact hab
      · exact hab.trans ((List.pairwise_cons.mp hbs).1 q.1 hqbs)

/-- On a date-sorted merged sequence, every yielded individual keeps the date
of the merged element that produced it: the last-seen other-side individual is
never later, and the kind's addition keeps the later date. -/
theorem unionYield_map_date (K : IndividualKind S)
    (hadd : ∀ x y, K.date y ≤ K.date x → K.date (K.add x y) = K.date x) :
    ∀ (l : List (S × Bool)) (lf ls : Option S),
      l.Pairwise (fun p q => K.date p.1 ≤ K.date q.1) →
      (∀ y, lf = some y → ∀ p ∈ l, K.date y ≤ K.date p.1) →
      (∀ y, ls = some y → ∀ p ∈ l, K.date y ≤ K.date p.1) →
      (unionYield K l lf ls).map K.date = l.map (fun p => K.date p.1) := by
  intro l
  induction l with
  | nil => intros; rfl
  | cons p rest ih =>
    obtain ⟨x, side⟩ := p
    intro lf ls hsort hlf hls
    obtain ⟨hhead, htail⟩ := List.pairwise_cons.mp hsort
    have hlf' : ∀ y, lf = some y → ∀ p ∈ rest, K.date y ≤ K.date p.1 :=
      fun y hy q hq => hlf y hy q (List.mem_cons_of_mem _ hq)
    have hls' : ∀ y, ls = some y → ∀ p ∈ rest, K.date y ≤ K.date p.1 :=
      fun y hy q hq => hls y hy q (List.mem_cons_of_mem _ hq)
    have hx : ∀ y, some x = some y → ∀ p ∈ rest, K.date y ≤ K.date p.1 := by
      intro y hy q hq
      cases hy
      exact hhead q hq
    cases side
    · cases lf with
      | none =>
        show (x :: unionYield K rest none (some x)).map K.date = _
        rw [List.map_cons, List.map_cons]
        exact congrArg _ (ih none (some x) htail (fun y hy => by cases hy) hx)
      | some y =>
        show (K.add x y :: unionYield K rest (some y) (some x)).map K.date = _
        rw [List.map_cons, List.map_cons,
          hadd x y (hlf y rfl (x, false) (List.mem_cons_self _ _))]
        exact congrArg _ (ih (some y) (some x) htail hlf' hx)
    · cases ls with
      | none =>
        show (x :: unionYield K rest (some x) none).map K.date = _
        rw [List.map_cons, List.map_cons]
        exact congrArg _ (ih (some x) none htail hx (fun y hy => by cases hy))
      | some y =>
        show (K.add x y :: unionYield K rest (some x) (some y)).map K.date = _
        rw [List.map_cons, List.map_cons,
          hadd x y (hls y rfl (x, true) (List.mem_cons_self _ _))]
        exact congrArg _ (ih (some x) (some y) htail hx hls')

/-- Iterating any cluster whose leaves are date-sorted produces a date-sorted
(pairwise) sequence. -/
theorem iterCluster_sorted_pairwise (K : IndividualKind S)
    (heqb : ∀ x y, K.eqb x y = true → K.date x = K.date y)
    (hadd : ∀ x y, K.date y ≤ K.date x → K.date (K.add x y) = K.date x)
    (c : ClusterE S) (hc : leavesSorted K c) :
    (iterCluster K c).Pairwise (fun x y => K.date x ≤ K.date y) := by
  induction c with
  | leaf sample => exact hc
  | union f s ihf ihs =>
    obtain ⟨hf, hs⟩ := hc
    have hm := mergeAux_sorted K heqb (iterCluster K f) (iterCluster K s) true
      (ihf hf) (ihs hs)
    show (lazyUnionIter K (iterCluster K f) (iterCluster K s)).Pairwise _
    unfold lazyUnionIter
    have hmap := unionYield_map_date K hadd
      (mergeAux K (iterCluster K f) (iterCluster K s) true) none none hm
      (fun y hy => by cases hy) (fun y hy => by cases hy)
    have h1 : ((unionYield K
        (mergeAux K (iterCluster K f) (iterCluster K s) true) none none).map
          K.date).Pairwise (· ≤ ·) := by
      rw [hmap]
      exact List.pairwise_map.mpr hm
    exact List.pairwise_map.mp h1

/-- GitHub snapshot addition keeps the later date. -/
theorem ghKind_add_date (x y : GitHubRepository.Snapshot)
    (h : ghKind.date y ≤ ghKind.date x) :
    ghKind.date (ghKind.add x y) = ghKind.date x := by
  simp only [ghKind, GitHubRepository.Snapshot.add]
  exact Nat.max_eq_left h

/-- C5: every cluster built from entity stores (date-sorted leaves) and lazy
unions over them yields, on iteration, a sequence that ascends by timestamp:
each yielded individual's timestamp is at least the previous one's.  The
hypotheses hold for every snapshot kind of the repository: Python snapshot
equality requires equal dates, and snapshot addition keeps the later date
(GitHub takes the maximum, the other kinds keep the left, i.e. later-merged,
operand's date). -/
theorem C5_iteration_sorted (S : Type) (K : IndividualKind S)
    (heqb : ∀ x y, K.eqb x y = true → K.date x = K.date y)
    (hadd : ∀ x y, K.date y ≤ K.date x → K.date (K.add x y) = K.date x)
    (c : ClusterE S) (hc : leavesSorted K c) :
    (iterCluster K c).Chain' (fun x y => K.date x ≤ K.date y) :=
  (iterCluster_sorted_pairwise K heqb hadd c hc).chain'

/-- Witness for C5 on a concrete union of two sorted stores. -/
theorem C5_witness :
    (iterCluster ghKind c5c).Chain' (fun x y => ghKind.date x ≤ ghKind.date y) :=
  C5_iteration_sorted _ ghKind ghKind_eqb_date ghKind_add_date c5c
    (by simp [leavesSorted, c5c, mkGH, ghKind])

end ContentNetworkAnalyzer
